import Mathlib

/-!
Shallow embedding of the episode-generation core of the storyteller backend
(`app/services/story_service.py`, `app/services/memory_service.py`,
`app/services/prompt_service.py`), together with theorems settling the
frozen claims about it.

Text is modelled as `List Char`.  Python float arithmetic on the small
numeric constants used by the code (`0.8`, `0.3`, `1.3 * 1.5`) is modelled
by exact arithmetic — the threshold comparisons become integer
cross-multiplications and the token budget an `Int.floor` over ℚ.  At
every comparison of an integer against such a threshold the
double-precision result coincides with the exact value (the fractional
parts of `n·0.8`, `n·0.3`, `n·1.95` stay far enough from integers and the
representation errors are below every half-ulp involved), so the
embedding is faithful on all reachable inputs.  Recursive scanners are
written with an explicit fuel argument (always called with fuel at least
their progress bound) so that all definitions reduce on concrete input.
-/

namespace Storyteller

/-- Python whitespace (the characters stripped by `str.strip` and matched
by the regex class `\s` on ASCII text). -/
def isWS (c : Char) : Bool :=
  c == ' ' || c == '\t' || c == '\n' || c == '\r' || c == '\x0b' || c == '\x0c'

/-- `str.lstrip()`. -/
def lstrip (s : List Char) : List Char := s.dropWhile isWS

/-- `str.rstrip()`. -/
def rstrip (s : List Char) : List Char := (s.reverse.dropWhile isWS).reverse

/-- `str.strip()`. -/
def strip (s : List Char) : List Char := lstrip (rstrip s)

/-- Sentence-terminal punctuation, the regex class `[.!?]`. -/
def isTerm (c : Char) : Bool := c == '.' || c == '!' || c == '?'

/-- The regex class `["']`. -/
def isQuote (c : Char) : Bool := c == '"' || c == '\''

/-- `re.search(r'[.!?]["\']?$', content)` of `_ensure_complete_ending`:
the text ends with terminal punctuation, optionally followed by one
quote character.  (Python's `$` would also match before one trailing
newline, but the code only applies this to right-stripped text, where
that cannot arise.) -/
def endsProper (s : List Char) : Bool :=
  match s.reverse with
  | [] => false
  | c :: rest =>
    isTerm c ||
      (isQuote c && (match rest with | d :: _ => isTerm d | [] => false))

/-- End position of a match of `[.!?]["\']?(?=\s|$)` starting at index `i`
of `s`, if any (the optional quote is consumed greedily, exactly as the
regex engine does). -/
def matchEndAt (s : List Char) (i : Nat) : Option Nat :=
  match s.drop i with
  | [] => none
  | c :: rest =>
    if isTerm c then
      match rest with
      | [] => some (i + 1)
      | d :: rest2 =>
        if isQuote d then
          match rest2 with
          | [] => some (i + 2)
          | e :: _ => if isWS e then some (i + 2) else none
        else if isWS d then some (i + 1) else none
    else none

/-- `matches[-1].end()` for `re.finditer(r'[.!?]["\']?(?=\s|$)', content)`:
the end position of the last sentence-terminator match. -/
def lastSentEnd (s : List Char) : Option Nat :=
  (List.range s.length).foldl
    (fun acc i => match matchEndAt s i with | some e => some e | none => acc)
    none

/-- `content.split('\n\n')`: split on non-overlapping occurrences of a
blank-line separator, scanned left to right. -/
def splitDD : List Char → List (List Char)
  | '\n' :: '\n' :: rest => [] :: splitDD rest
  | c :: rest =>
    match splitDD rest with
    | [] => [[c]]
    | seg :: segs => (c :: seg) :: segs
  | [] => [[]]

/-- `[p.strip() for p in content.split('\n\n') if p.strip()]`. -/
def paragraphsOf (s : List Char) : List (List Char) :=
  ((splitDD s).map strip).filter (fun p => !p.isEmpty)

/-- The separator `'\n\n'`. -/
def nn : List Char := ['\n', '\n']

/-- `StoryService._check_paragraph_completeness`.  The source compares
`last_para_length < avg_length * 0.3` with `avg_length = sum/len`; in
exact arithmetic that is `10 * last * len < 3 * sum` (see
`c3_paragraph_rule` for the mean/percentage formulation). -/
def checkParagraphCompleteness (content : List Char) : List Char :=
  let paragraphs := paragraphsOf content
  if paragraphs.length < 2 then content
  else
    let others := paragraphs.dropLast
    let lastParaLength := (paragraphs.getLast?.getD []).length
    if 10 * lastParaLength * others.length < 3 * (others.map List.length).sum then
      rstrip (List.intercalate nn others)
    else content

/-- `StoryService._ensure_complete_ending`.  The source's 80% retention
test `len(truncated) >= len(content) * 0.8` is rendered exactly as
`8 * len(content) ≤ 10 * len(truncated)` (see `c2_amended` for the
percentage formulation). -/
def ensureCompleteEnding (content : List Char) : List Char :=
  if content.isEmpty then content
  else
    let c := rstrip content
    if endsProper c then checkParagraphCompleteness c
    else
      match lastSentEnd c with
      | some e =>
        let truncated := rstrip (c.take e)
        if 8 * c.length ≤ 10 * truncated.length then
          checkParagraphCompleteness truncated
        else c
      | none => c

/-- `StoryService._calculate_max_tokens`: `int(target_words * 1.3 * 1.5)`. -/
def calculateMaxTokens (targetWords : Nat) : ℤ :=
  Int.floor ((targetWords : ℚ) * (13 / 10) * (3 / 2))

/-- Case-insensitive prefix test (`re.IGNORECASE` on the ASCII literals the
cleanup patterns use); the pattern argument is given in lowercase. -/
def startsWithCI : List Char → List Char → Bool
  | [], _ => true
  | _ :: _, [] => false
  | p :: ps, c :: cs => (c.toLower == p) && startsWithCI ps cs

/-- Index of the last `'\n'` in a list, if any. -/
def lastNLIdx (l : List Char) : Option Nat :=
  (l.reverse.findIdx? (fun c => c == '\n')).map (fun r => l.length - 1 - r)

/-- Index of the last `':'` in a list, if any. -/
def lastColonIdx (l : List Char) : Option Nat :=
  (l.reverse.findIdx? (fun c => c == ':')).map (fun r => l.length - 1 - r)

/-- Whether some case-insensitive occurrence of one of `keys` in `line` is
followed (at or after its end) by a `':'`; realizes the backtracking search
of `[^\n]*(?:k1|k2|...)[^\n]*:` within one line. -/
def hasKeyColonAfter (keys : List (List Char)) : List Char → Bool
  | [] => false
  | c :: rest =>
    keys.any (fun k =>
      startsWithCI k (c :: rest) && ((c :: rest).drop k.length).contains ':')
    || hasKeyColonAfter keys rest

/-- Cleanup pattern 1 of `StoryService.CLEANUP_PATTERNS`:
`^["\'][^"\']+["\'][\s]*(?:This title|This hints|This captures|This reflects)[^\n]*\n*`
with `IGNORECASE` — length of the match at position 0, if any. -/
def matchTitleExplanation (s : List Char) : Option Nat :=
  match s with
  | [] => none
  | q1 :: rest =>
    if isQuote q1 then
      let inner := rest.takeWhile (fun c => !isQuote c)
      if inner.isEmpty then none
      else
        match rest.drop inner.length with
        | [] => none
        | q2 :: rest2 =>
          if isQuote q2 then
            let ws := rest2.takeWhile isWS
            let rest3 := rest2.drop ws.length
            let phrase :=
              if startsWithCI ("this title".toList) rest3 then some 10
              else if startsWithCI ("this hints".toList) rest3 then some 10
              else if startsWithCI ("this captures".toList) rest3 then some 13
              else if startsWithCI ("this reflects".toList) rest3 then some 13
              else none
            match phrase with
            | some pl =>
              let rest4 := rest3.drop pl
              let lineRest := rest4.takeWhile (fun c => c != '\n')
              let rest5 := rest4.drop lineRest.length
              let nls := rest5.takeWhile (fun c => c == '\n')
              some (1 + inner.length + 1 + ws.length + pl + lineRest.length + nls.length)
            | none => none
          else none
    else none

/-- Fuel-indexed worker for `numberedLinesLen` (structural recursion so
that concrete inputs reduce; every iteration consumes at least two
characters, so `s.length` fuel is never exhausted). -/
def numberedLinesLenF : Nat → List Char → Nat
  | 0, _ => 0
  | fuel + 1, s =>
    let ds := s.takeWhile Char.isDigit
    if ds.isEmpty then 0
    else
      match s.drop ds.length with
      | '.' :: rest =>
        let lineRest := rest.takeWhile (fun c => c != '\n')
        match rest.drop lineRest.length with
        | '\n' :: rest2 =>
          ds.length + 1 + lineRest.length + 1 + numberedLinesLenF fuel rest2
        | _ => 0
      | _ => 0

/-- Length consumed by `(?:\d+\.[^\n]*\n)*` (zero or more numbered lines,
each ending in a newline), used by cleanup pattern 2. -/
def numberedLinesLen (s : List Char) : Nat := numberedLinesLenF s.length s

/-- Cleanup pattern 2:
`^Here (?:are|is)[^\n]*(?:title|option)[^\n]*:\s*\n?(?:\d+\.[^\n]*\n)*`
with `IGNORECASE`.  The two greedy `[^\n]*` pieces make the match run to
the last `':'` of the first line that also has `title`/`option` before it;
`\s*` then absorbs the whitespace after the colon and `\n?` is vacuous. -/
def matchTitleIntro (s : List Char) : Option Nat :=
  if startsWithCI ("here ".toList) s then
    let rest0 := s.drop 5
    let verbLen :=
      if startsWithCI ("are".toList) rest0 then some 3
      else if startsWithCI ("is".toList) rest0 then some 2
      else none
    match verbLen with
    | some vl =>
      let rest1 := rest0.drop vl
      let line := rest1.takeWhile (fun c => c != '\n')
      if hasKeyColonAfter [("title".toList), ("option".toList)] line then
        match lastColonIdx line with
        | some ci =>
          let rest2 := rest1.drop (ci + 1)
          let ws := rest2.takeWhile isWS
          let rest3 := rest2.drop ws.length
          some (5 + vl + ci + 1 + ws.length + numberedLinesLen rest3)
        | none => none
      else none
    | none => none
  else none

/-- One iteration of cleanup pattern 3: `\d+\.\s*["\'][^\n]*\n?`. -/
def numberedQuoteLineLen (s : List Char) : Option Nat :=
  let ds := s.takeWhile Char.isDigit
  if ds.isEmpty then none
  else
    match s.drop ds.length with
    | '.' :: rest =>
      let ws := rest.takeWhile isWS
      match rest.drop ws.length with
      | [] => none
      | q :: rest2 =>
        if isQuote q then
          let lineRest := rest2.takeWhile (fun c => c != '\n')
          let rest3 := rest2.drop lineRest.length
          let nl := if rest3.head? == some '\n' then 1 else 0
          some (ds.length + 1 + ws.length + 1 + lineRest.length + nl)
        else none
    | _ => none

/-- Fuel-indexed worker for the greedy repetition of cleanup pattern 3
(each iteration consumes at least three characters, so `s.length` fuel is
never exhausted). -/
def matchNumberedTitleListAuxF : Nat → List Char → Nat
  | 0, _ => 0
  | fuel + 1, s =>
    match numberedQuoteLineLen s with
    | some L => L + matchNumberedTitleListAuxF fuel (s.drop L)
    | none => 0

/-- Greedy repetition for cleanup pattern 3: total length of zero or more
further iterations. -/
def matchNumberedTitleListAux (s : List Char) : Nat :=
  matchNumberedTitleListAuxF s.length s

/-- Cleanup pattern 3: `^(?:\d+\.\s*["\'][^\n]*\n?)+` with `MULTILINE`
(one or more numbered quoted-title lines at a line start). -/
def matchNumberedTitleList (s : List Char) : Option Nat :=
  match numberedQuoteLineLen s with
  | some L => some (L + matchNumberedTitleListAux (s.drop L))
  | none => none

/-- Whether `seg` (one line's tail segment) consists of at most two `'*'`
characters followed only by whitespace. -/
def starsThenWS (seg : List Char) : Bool :=
  let stars := seg.takeWhile (fun c => c == '*')
  stars.length ≤ 2 && (seg.drop stars.length).all isWS

/-- Smallest split point `r` of `seg` such that `seg.drop r` is at most two
stars followed by whitespace (`r = seg.length` always qualifies). -/
def minStarsWSStart : List Char → Nat
  | [] => 0
  | c :: rest => if starsThenWS (c :: rest) then 0 else 1 + minStarsWSStart rest

/-- Tail `.*?\*{0,2}\s*\n+` of cleanup pattern 4: the lazy `.*?` stops at
the earliest point from which optional stars plus whitespace reach the
line's newline, and the match then extends through the last newline of the
whitespace run. -/
def tailStarsWSNL (u : List Char) : Option Nat :=
  match u.findIdx? (fun c => c == '\n') with
  | none => none
  | some nl1 =>
    let seg := u.take nl1
    let r := minStarsWSStart seg
    let k := ((seg.drop r).takeWhile (fun c => c == '*')).length
    let ws := (u.drop (r + k)).takeWhile isWS
    match lastNLIdx ws with
    | some j => some (r + k + j + 1)
    | none => none

/-- Cleanup pattern 4:
`^\*{0,2}Episode\s+\d+[:\s].*?\*{0,2}\s*\n+` with `IGNORECASE | MULTILINE`. -/
def matchEpisodeHeader (s : List Char) : Option Nat :=
  let stars := s.takeWhile (fun c => c == '*')
  if stars.length > 2 then none
  else
    let rest0 := s.drop stars.length
    if startsWithCI ("episode".toList) rest0 then
      let rest1 := rest0.drop 7
      let ws1 := rest1.takeWhile isWS
      if ws1.isEmpty then none
      else
        let rest2 := rest1.drop ws1.length
        let ds := rest2.takeWhile Char.isDigit
        if ds.isEmpty then none
        else
          match rest2.drop ds.length with
          | [] => none
          | c :: rest3 =>
            if c == ':' || isWS c then
              (tailStarsWSNL rest3).map
                (fun t => stars.length + 7 + ws1.length + ds.length + 1 + t)
            else none
    else none

/-- Cleanup pattern 5: `^#{1,3}\s*Episode\s+\d+.*?\n+` with
`IGNORECASE | MULTILINE`. -/
def matchHashEpisodeHeader (s : List Char) : Option Nat :=
  let hs := s.takeWhile (fun c => c == '#')
  if hs.isEmpty || hs.length > 3 then none
  else
    let rest0 := s.drop hs.length
    let ws0 := rest0.takeWhile isWS
    let rest1 := rest0.drop ws0.length
    if startsWithCI ("episode".toList) rest1 then
      let rest2 := rest1.drop 7
      let ws1 := rest2.takeWhile isWS
      if ws1.isEmpty then none
      else
        let rest3 := rest2.drop ws1.length
        let ds := rest3.takeWhile Char.isDigit
        if ds.isEmpty then none
        else
          let rest4 := rest3.drop ds.length
          match rest4.findIdx? (fun c => c == '\n') with
          | some i =>
            let nls := ((rest4.drop i).takeWhile (fun c => c == '\n')).length
            some (hs.length + ws0.length + 7 + ws1.length + ds.length + i + nls)
          | none => none
    else none

/-- Cleanup pattern 6: `^(?:Certainly|Sure|Of course|Absolutely)[!,.].*?\n+`
with `IGNORECASE`. -/
def matchPreamblePhrase (s : List Char) : Option Nat :=
  let wd :=
    if startsWithCI ("certainly".toList) s then some 9
    else if startsWithCI ("sure".toList) s then some 4
    else if startsWithCI ("of course".toList) s then some 9
    else if startsWithCI ("absolutely".toList) s then some 10
    else none
  match wd with
  | some w =>
    match s.drop w with
    | [] => none
    | c :: rest =>
      if c == '!' || c == ',' || c == '.' then
        match rest.findIdx? (fun c2 => c2 == '\n') with
        | some i =>
          let nls := ((rest.drop i).takeWhile (fun c2 => c2 == '\n')).length
          some (w + 1 + i + nls)
        | none => none
      else none
  | none => none

/-- Cleanup pattern 7:
`^(?:Here\'s|Here is)[^\n]*(?:episode|story|chapter)[^\n]*:\s*\n+`
with `IGNORECASE`; here `\s*\n+` requires a newline inside the whitespace
run after the colon and consumes through the last such newline. -/
def matchHeresIntro (s : List Char) : Option Nat :=
  let pre :=
    if startsWithCI ("here\'s".toList) s then some 6
    else if startsWithCI ("here is".toList) s then some 7
    else none
  match pre with
  | some pl =>
    let rest1 := s.drop pl
    let line := rest1.takeWhile (fun c => c != '\n')
    if hasKeyColonAfter [("episode".toList), ("story".toList), ("chapter".toList)] line then
      match lastColonIdx line with
      | some ci =>
        let rest2 := rest1.drop (ci + 1)
        let ws := rest2.takeWhile isWS
        match lastNLIdx ws with
        | some j => some (pl + ci + 1 + j + 1)
        | none => none
      | none => none
    else none
  | none => none

/-- `re.sub(pattern, '', s)` for a pattern anchored by a non-`MULTILINE`
`^`: at most the single match at position 0 is removed. -/
def subAnchored (m : List Char → Option Nat) (s : List Char) : List Char :=
  match m s with
  | some L => s.drop L
  | none => s

/-- Fuel-indexed worker for `re.sub(pattern, '', s)` with a `MULTILINE`
`^`-anchored pattern: scan the original string left to right, trying the
matcher at every line start, removing each (necessarily non-empty) match
and resuming right after it.  Every step consumes at least one character,
so `s.length + 1` fuel is never exhausted. -/
def subMLAuxF (m : List Char → Option Nat) :
    Nat → List Char → Bool → List Char
  | 0, s, _ => s
  | fuel + 1, s, atStart =>
    match s with
    | [] => []
    | c :: rest =>
      if atStart then
        match m (c :: rest) with
        | some L =>
          if 0 < L then
            subMLAuxF m fuel ((c :: rest).drop L)
              (((c :: rest).take L).getLast? == some '\n')
          else c :: subMLAuxF m fuel rest (c == '\n')
        | none => c :: subMLAuxF m fuel rest (c == '\n')
      else c :: subMLAuxF m fuel rest (c == '\n')

/-- `re.sub` over all line starts of the original string. -/
def subML (m : List Char → Option Nat) (s : List Char) : List Char :=
  subMLAuxF m (s.length + 1) s true

/-- The `for pattern, flags in self.CLEANUP_PATTERNS: cleaned = re.sub(...)`
loop of `StoryService._clean_content`, in source order. -/
def applyCleanupPatterns (content : List Char) : List Char :=
  let c1 := subAnchored matchTitleExplanation content
  let c2 := subAnchored matchTitleIntro c1
  let c3 := subML matchNumberedTitleList c2
  let c4 := subML matchEpisodeHeader c3
  let c5 := subML matchHashEpisodeHeader c4
  let c6 := subAnchored matchPreamblePhrase c5
  subAnchored matchHeresIntro c6

/-- `StoryService._clean_content`. -/
def cleanContent (content : List Char) : List Char :=
  ensureCompleteEnding (strip (applyCleanupPatterns content))

/-- `re.search(r'["\']([^"\']+)["\']', raw)` of `_clean_title`: the first
(leftmost) group captured by a quote, one or more non-quote characters,
and another quote. -/
def firstQuoted : List Char → Option (List Char)
  | [] => none
  | c :: rest =>
    if isQuote c then
      let inner := rest.takeWhile (fun d => !isQuote d)
      if inner.isEmpty then firstQuoted rest
      else if (rest.drop inner.length).isEmpty then firstQuoted rest
      else some inner
    else firstQuoted rest

/-- `re.sub(r'^(?:Here (?:are|is)[^\n]*:?\s*)', '', raw, flags=re.IGNORECASE)`
of `_clean_title`: the greedy `[^\n]*` runs to the end of the line, `:?`
is vacuous there, and `\s*` absorbs the following whitespace. -/
def matchHerePreamble (s : List Char) : Option Nat :=
  if startsWithCI ("here ".toList) s then
    let rest0 := s.drop 5
    let verbLen :=
      if startsWithCI ("are".toList) rest0 then some 3
      else if startsWithCI ("is".toList) rest0 then some 2
      else none
    match verbLen with
    | some vl =>
      let rest1 := rest0.drop vl
      let line := rest1.takeWhile (fun c => c != '\n')
      let rest2 := rest1.drop line.length
      let ws := rest2.takeWhile isWS
      some (5 + vl + line.length + ws.length)
    | none => none
  else none

/-- `re.sub(r'^\d+\.\s*', '', cleaned)` of `_clean_title`. -/
def matchOrdinal (s : List Char) : Option Nat :=
  let ds := s.takeWhile Char.isDigit
  if ds.isEmpty then none
  else
    match s.drop ds.length with
    | '.' :: rest => some (ds.length + 1 + (rest.takeWhile isWS).length)
    | _ => none

/-- `str.strip(chars)` for a character set given as a predicate. -/
def stripSet (p : Char → Bool) (s : List Char) : List Char :=
  ((s.dropWhile p).reverse.dropWhile p).reverse

/-- `StoryService._clean_title`. -/
def cleanTitle (raw : List Char) : List Char :=
  match firstQuoted raw with
  | some g => (strip g).take 255
  | none =>
    let c1 := subAnchored matchHerePreamble raw
    let c2 := subAnchored matchOrdinal c1
    let cleaned := stripSet isQuote (strip c2)
    if cleaned.isEmpty then ("Untitled".toList) else cleaned.take 255

/-- Python `x or default` for an optional string-valued field (`None` and
the empty string are falsy). -/
def pyOrList (v : Option (List Char)) (d : List Char) : List Char :=
  match v with
  | some s => if s.isEmpty then d else s
  | none => d

/-- `WORD_PRESETS` of `app/services/prompt_service.py`. -/
def WORD_PRESETS : List (List Char × Int) :=
  [("short".toList, 750), ("medium".toList, 1250),
   ("long".toList, 2000), ("epic".toList, 3000)]

/-- The effective-target-words resolution of `generate_episode_stream`:
`target_words or WORD_PRESETS.get(word_preset, 1250) or
settings.episode_target_words`, where `word_preset` is
`story.target_word_preset or "medium"` from `_get_story_settings`. -/
def effectiveTargetWords (targetWords : Option Int)
    (storyPreset : Option (List Char)) (configDefault : Int) : Int :=
  let wordPreset := pyOrList storyPreset ("medium".toList)
  let fromPreset : Int := (WORD_PRESETS.lookup wordPreset).getD 1250
  let second := if fromPreset ≠ 0 then fromPreset else configDefault
  match targetWords with
  | some n => if n ≠ 0 then n else second
  | none => second

/-- `MemoryService.ACTIVE_MEMORY_EPISODES`. -/
def ACTIVE_MEMORY_EPISODES : Nat := 3

/-- How Python renders an `Optional[str]` inside an f-string (`None` prints
as the text `None`). -/
def pyStr (o : Option (List Char)) : List Char :=
  match o with
  | some s => s
  | none => ("None".toList)

/-- `StoryStatus` of `app/models/story.py`. -/
inductive StoryStatus
  | draft
  | inProgress
  | completed
  | abandoned
deriving DecidableEq, Repr

/-- `CharacterRole` of `app/models/story.py`. -/
inductive CharacterRole
  | protagonist
  | supporting
  | antagonist
deriving DecidableEq, Repr

/-- The `Episode` row (`app/models/episode.py`); `word_count` has column
default 0, the text columns are nullable.  `audio_url` and the timestamps
are irrelevant to the claims and omitted. -/
structure Episode where
  id : Nat
  storyId : Nat
  number : Nat
  title : Option (List Char)
  content : Option (List Char)
  summary : Option (List Char)
  guidance : Option (List Char)
  wordCount : Nat
deriving DecidableEq, Repr

/-- `MemoryService._get_last_paragraphs`. -/
def getLastParagraphs (content : Option (List Char)) (n : Nat) : List Char :=
  match content with
  | none => []
  | some c =>
    if c.isEmpty then []
    else
      let paragraphs := paragraphsOf c
      if paragraphs.isEmpty then c
      else List.intercalate nn (paragraphs.drop (paragraphs.length - n))

/-- `MemoryService._build_active_memory`; `episodes` arrives newest-first
and is re-reversed into chronological order. -/
def buildActiveMemory (episodes : List Episode) (condensed : Bool) : List Char :=
  if episodes.isEmpty then []
  else
    let parts := episodes.reverse.map (fun ep =>
      let content :=
        if condensed then
          let summaryParts :=
            match ep.summary with
            | some s => if s.isEmpty then [] else [("Summary: ".toList) ++ s]
            | none => []
          let ending := getLastParagraphs ep.content 2
          let endingParts :=
            if ending.isEmpty then [] else [("Ending:\n".toList) ++ ending]
          List.intercalate nn (summaryParts ++ endingParts)
        else pyStr ep.content
      ("=== Episode ".toList) ++ (Nat.repr ep.number).toList ++ (": ".toList) ++
        pyOrList ep.title ("Untitled".toList) ++ (" ===\n".toList) ++ content)
    List.intercalate nn parts

/-- The adaptive active-memory sizing of `MemoryService.build_context`
(lines 34–49) followed by the `_build_active_memory` call: `episodes` is
the story's episode list ordered newest-first. -/
def activeMemoryOfContext (episodes : List Episode) (targetWords : Int) :
    List Char :=
  let sel : Nat × Bool :=
    if targetWords ≤ 750 then (1, true)
    else if targetWords ≤ 1250 then (2, false)
    else (ACTIVE_MEMORY_EPISODES, false)
  buildActiveMemory (episodes.take sel.1) sel.2

/-- The `Story` row (`app/models/story.py`); timestamps omitted.  The
generation-setting columns are nullable. -/
structure Story where
  id : Nat
  title : List Char
  scenarioId : Nat
  status : StoryStatus
  parentStoryId : Option Nat
  forkFromEpisode : Option Nat
  targetWordPreset : Option (List Char)
  temperature : Option ℚ
  writingStyle : Option (List Char)
  mood : Option (List Char)
  pacing : Option (List Char)
deriving DecidableEq, Repr

/-- The `StoryCharacter` association row (`app/models/story.py`). -/
structure StoryCharacter where
  storyId : Nat
  characterId : Nat
  role : CharacterRole
deriving DecidableEq, Repr

/-- The `MemoryState` row (`app/models/memory.py`). -/
structure MemoryState where
  storyId : Nat
  episodeId : Nat
  activeMemory : List Char
  backgroundMemory : List Char
  fadedMemory : List Char
  characterStates : List Char
  plotThreads : List Char
deriving DecidableEq, Repr

/-- The relational store as seen by the story service: the tables it
touches plus the autoincrement counters the database assigns ids from. -/
structure DB where
  stories : List Story
  episodes : List Episode
  storyCharacters : List StoryCharacter
  memories : List MemoryState
  nextStoryId : Nat
  nextEpisodeId : Nat
deriving DecidableEq, Repr

/-- Insertion into an `ORDER BY Episode.number` result list. -/
def insertByNumber (e : Episode) : List Episode → List Episode
  | [] => [e]
  | f :: fs => if e.number ≤ f.number then e :: f :: fs else f :: insertByNumber e fs

/-- `ORDER BY Episode.number` over a query result. -/
def sortByNumber : List Episode → List Episode
  | [] => []
  | e :: es => insertByNumber e (sortByNumber es)

/-- `StoryService.fork_story`; returns `none` where the code raises
`ValueError("Original story not found")`.  New row ids come from the
autoincrement counters, the copied episodes in `ORDER BY number` order. -/
def forkStory (db : DB) (storyId : Nat) (fromEpisode : Nat)
    (newTitle : List Char) : Option (DB × Story) :=
  match db.stories.find? (fun s => s.id == storyId) with
  | none => none
  | some orig =>
    let forked : Story :=
      ⟨db.nextStoryId, newTitle, orig.scenarioId, StoryStatus.inProgress,
        some storyId, some fromEpisode, orig.targetWordPreset, orig.temperature,
        orig.writingStyle, orig.mood, orig.pacing⟩
    let newSCs :=
      (db.storyCharacters.filter (fun sc => sc.storyId == storyId)).map
        (fun sc => StoryCharacter.mk forked.id sc.characterId sc.role)
    let episodesToCopy :=
      sortByNumber (db.episodes.filter
        (fun e => e.storyId == storyId && e.number ≤ fromEpisode))
    let copies := episodesToCopy.enum.map (fun p =>
      Episode.mk (db.nextEpisodeId + p.1) forked.id p.2.number p.2.title
        p.2.content p.2.summary p.2.guidance p.2.wordCount)
    let forkMemory := db.memories.find? (fun m =>
      m.storyId == storyId &&
        (db.episodes.find? (fun e => e.id == m.episodeId)).any
          (fun e => e.number == fromEpisode))
    let lastEpisode := (sortByNumber copies).getLast?
    let newMemories :=
      match forkMemory, lastEpisode with
      | some fm, some le =>
        [MemoryState.mk forked.id le.id fm.activeMemory fm.backgroundMemory
          fm.fadedMemory fm.characterStates fm.plotThreads]
      | _, _ => []
    some (DB.mk (db.stories ++ [forked]) (db.episodes ++ copies)
      (db.storyCharacters ++ newSCs) (db.memories ++ newMemories)
      (db.nextStoryId + 1) (db.nextEpisodeId + copies.length), forked)

/-- The events yielded by `generate_episode_stream`. -/
inductive GEvent
  | start (episodeId : Nat)
  | token (data : List Char) (episodeId : Nat)
  | sentence (data : List Char) (episodeId : Nat)
  | complete (episodeId : Nat) (title : List Char) (wordCount : Nat)
  | error (data : List Char) (episodeId : Option Nat)
deriving DecidableEq, Repr

/-- The character class `["\')\]]` of the `sentence_endings` pattern. -/
def isCloser (c : Char) : Bool :=
  c == '"' || c == '\'' || c == ')' || c == ']'

/-- Fuel-indexed worker for `splitSentences` (every step consumes at least
one character, so `s.length + 1` fuel is never exhausted). -/
def splitSentencesF : Nat → List Char → List (List Char)
  | 0, s => [s]
  | fuel + 1, s =>
    match s with
    | [] => [[]]
    | c :: rest =>
      if isTerm c then
        let closers := rest.takeWhile isCloser
        let rest2 := rest.drop closers.length
        let ws := rest2.takeWhile isWS
        [] :: splitSentencesF fuel (rest2.drop ws.length)
      else
        match splitSentencesF fuel rest with
        | [] => [[c]]
        | seg :: segs => (c :: seg) :: segs

/-- `re.split(r'[.!?]["\')\]]*\s*', s)`: pieces between the non-overlapping
matches of one terminal character, a run of closers, and a whitespace run. -/
def splitSentences (s : List Char) : List (List Char) :=
  splitSentencesF (s.length + 1) s

/-- One iteration of the token loop of `generate_episode_stream`
(lines 100–117): extend the sentence buffer, emit the `token` event, and
emit `sentence` events for every completed sentence. -/
def processToken (epId : Nat) (cur tok : List Char) : List GEvent × List Char :=
  let cur2 := cur ++ tok
  let tokenEv := [GEvent.token tok epId]
  if cur2.any isTerm then
    let sentences := splitSentences cur2
    let emitted :=
      (sentences.dropLast.filter (fun sn => !(strip sn).isEmpty)).map
        (fun sn => GEvent.sentence (strip sn) epId)
    (tokenEv ++ emitted, (sentences.getLast?).getD [])
  else (tokenEv, cur2)

/-- The whole token loop over the stream prefix that was delivered. -/
def processTokens (epId : Nat) : List (List Char) → List Char →
    List GEvent × List Char
  | [], cur => ([], cur)
  | t :: ts, cur =>
    let p := processToken epId cur t
    let q := processTokens epId ts p.2
    (p.1 ++ q.1, q.2)

/-- `StoryService._generate_title`: the primary provider's raw response is
cleaned; exactly when the cleaned title is the placeholder `Untitled`, the
fallback provider (if distinct and configured, else `none`) is queried once
and its response cleaned.  Network failures propagate as exceptions. -/
def generateTitle (primary : Except (List Char) (List Char))
    (fallback : Option (Except (List Char) (List Char))) :
    Except (List Char) (List Char) :=
  match primary with
  | Except.error e => Except.error e
  | Except.ok raw =>
    let t := cleanTitle raw
    if t = ("Untitled".toList) then
      match fallback with
      | some (Except.error e) => Except.error e
      | some (Except.ok raw2) => Except.ok (cleanTitle raw2)
      | none => Except.ok t
    else Except.ok t

/-- Worker for `wordCountOf`: count the starts of non-whitespace runs. -/
def wordCountAux : List Char → Bool → Nat
  | [], _ => 0
  | c :: rest, inWord =>
    if isWS c then wordCountAux rest false
    else (if inWord then 0 else 1) + wordCountAux rest true

/-- `len(content.split())`: number of maximal non-whitespace runs. -/
def wordCountOf (s : List Char) : Nat := wordCountAux s false

/-- `story.status = StoryStatus.IN_PROGRESS; db.commit()` on one row. -/
def updateStoryStatus (db : DB) (sid : Nat) (st : StoryStatus) : DB :=
  DB.mk (db.stories.map (fun s =>
      if s.id == sid then
        Story.mk s.id s.title s.scenarioId st s.parentStoryId s.forkFromEpisode
          s.targetWordPreset s.temperature s.writingStyle s.mood s.pacing
      else s))
    db.episodes db.storyCharacters db.memories db.nextStoryId db.nextEpisodeId

/-- `db.add(new_episode); db.commit()`: append the row, consuming one
autoincrement id. -/
def addEpisode (db : DB) (e : Episode) : DB :=
  DB.mk db.stories (db.episodes ++ [e]) db.storyCharacters db.memories
    db.nextStoryId (db.nextEpisodeId + 1)

/-- `db.delete(new_episode); db.commit()`: remove the row by primary key. -/
def deleteEpisode (db : DB) (eid : Nat) : DB :=
  DB.mk db.stories (db.episodes.filter (fun e => !(e.id == eid)))
    db.storyCharacters db.memories db.nextStoryId db.nextEpisodeId

/-- The successful-path episode update of lines 127–138: cleaned content,
its word count, the generated title and summary. -/
def finalizeEpisode (db : DB) (eid : Nat) (content : List Char)
    (wc : Nat) (title summary : List Char) : DB :=
  DB.mk db.stories (db.episodes.map (fun e =>
      if e.id == eid then
        Episode.mk e.id e.storyId e.number (some title) (some content)
          (some summary) e.guidance wc
      else e))
    db.storyCharacters db.memories db.nextStoryId db.nextEpisodeId

/-- The generation backend's behaviour for one request, as observed at the
network suspension points: the streamed tokens (the prefix delivered before
any failure), whether the stream then raised, and the outcomes of the
title call (primary and optional fallback) and the summary call. -/
structure GenBackend where
  tokens : List (List Char)
  streamError : Option (List Char)
  titleResponse : Except (List Char) (List Char)
  fallbackTitleResponse : Option (Except (List Char) (List Char))
  summaryResponse : Except (List Char) (List Char)
deriving Repr

/-- The first exception raised during the streaming/finalizing phase, if
any: the stream failure, else a title-generation failure, else a
summary-generation failure. -/
def backendFailure (b : GenBackend) : Option (List Char) :=
  match b.streamError with
  | some m => some m
  | none =>
    match generateTitle b.titleResponse b.fallbackTitleResponse with
    | Except.error e => some e
    | Except.ok _ =>
      match b.summaryResponse with
      | Except.error e => some e
      | Except.ok _ => none

/-- `StoryService.generate_episode_stream` as a function from the store and
the backend behaviour to the yielded event list and the final store.
Context building, prompt composition and provider selection are pure local
computations that raise no modelled exception and are elided, as is the
`save_memory_state` append on the success path (it touches no Episode row
and yields no event). -/
def generateEpisodeStream (db : DB) (storyId : Nat)
    (guidance : Option (List Char)) (backend : GenBackend) :
    List GEvent × DB :=
  match db.stories.find? (fun s => s.id == storyId) with
  | none => ([GEvent.error ("Story not found".toList) none], db)
  | some story =>
    let db1 :=
      if story.status = StoryStatus.draft then
        updateStoryStatus db storyId StoryStatus.inProgress
      else db
    let episodeCount := (db1.episodes.filter (fun e => e.storyId == storyId)).length
    let newEp : Episode :=
      Episode.mk db1.nextEpisodeId storyId (episodeCount + 1) none none none
        guidance 0
    let db2 := addEpisode db1 newEp
    let p := processTokens newEp.id backend.tokens []
    match backend.streamError with
    | some msg =>
      (GEvent.start newEp.id :: p.1 ++ [GEvent.error msg (some newEp.id)],
        deleteEpisode db2 newEp.id)
    | none =>
      let flushEvs :=
        if (strip p.2).isEmpty then []
        else [GEvent.sentence (strip p.2) newEp.id]
      let content := cleanContent (List.flatten backend.tokens)
      let wc := wordCountOf content
      match generateTitle backend.titleResponse backend.fallbackTitleResponse with
      | Except.error e =>
        (GEvent.start newEp.id :: p.1 ++ flushEvs ++
            [GEvent.error e (some newEp.id)],
          deleteEpisode db2 newEp.id)
      | Except.ok title =>
        match backend.summaryResponse with
        | Except.error e =>
          (GEvent.start newEp.id :: p.1 ++ flushEvs ++
              [GEvent.error e (some newEp.id)],
            deleteEpisode db2 newEp.id)
        | Except.ok rawSummary =>
          (GEvent.start newEp.id :: p.1 ++ flushEvs ++
              [GEvent.complete newEp.id title wc],
            finalizeEpisode db2 newEp.id content wc title (strip rawSummary))

/-! ## Shared auxiliary lemmas -/

theorem rstrip_length_le (s : List Char) : (rstrip s).length ≤ s.length := by
  unfold rstrip
  have h : (s.reverse.dropWhile isWS).length ≤ s.reverse.length :=
    (List.dropWhile_sublist isWS).length_le
  simpa using h

theorem rstrip_eq_self_of_strip (s : List Char) (h : strip s = s) :
    rstrip s = s := by
  have h1 : (strip s).length ≤ (rstrip s).length := by
    unfold strip lstrip
    exact (List.dropWhile_sublist isWS).length_le
  have h2 : (rstrip s).length ≤ s.length := rstrip_length_le s
  have hlen : (s.reverse.dropWhile isWS).length = s.reverse.length := by
    have := congrArg List.length h
    unfold rstrip at *
    simp at *
    omega
  unfold rstrip
  rw [(List.dropWhile_sublist isWS).eq_of_length hlen]
  exact List.reverse_reverse s

theorem matchEndAt_none_of_noTerm (s : List Char)
    (h : ∀ c ∈ s, isTerm c = false) (i : Nat) : matchEndAt s i = none := by
  unfold matchEndAt
  rcases hd : s.drop i with _ | ⟨c, rest⟩
  · rfl
  · have hc : c ∈ s := List.mem_of_mem_drop (by rw [hd]; exact List.mem_cons_self c rest)
    simp [h c hc]

theorem lastSentEnd_none_of_noTerm (s : List Char)
    (h : ∀ c ∈ s, isTerm c = false) : lastSentEnd s = none := by
  unfold lastSentEnd
  have hgen : ∀ L : List Nat,
      L.foldl (fun acc i =>
        match matchEndAt s i with | some e => some e | none => acc) none = none := by
    intro L
    induction L with
    | nil => rfl
    | cons a t ih =>
      simp only [List.foldl_cons, matchEndAt_none_of_noTerm s h a]
      exact ih
  exact hgen _

theorem mem_of_mem_rstrip {c : Char} {s : List Char} (h : c ∈ rstrip s) :
    c ∈ s := by
  unfold rstrip at h
  rw [List.mem_reverse] at h
  have := (List.dropWhile_sublist isWS).mem h
  rwa [List.mem_reverse] at this

theorem ratio80 (x y : ℕ) :
    ((x : ℚ) * (8 / 10) ≤ (y : ℚ)) ↔ 8 * x ≤ 10 * y := by
  have hx : (x : ℚ) * (8 / 10) = (8 * x) / 10 := by ring
  rw [hx, div_le_iff (by norm_num : (0:ℚ) < 10)]
  constructor
  · intro h
    have : ((8 * x : ℕ) : ℚ) ≤ ((10 * y : ℕ) : ℚ) := by push_cast; linarith
    exact_mod_cast this
  · intro h
    have : ((8 * x : ℕ) : ℚ) ≤ ((10 * y : ℕ) : ℚ) := by exact_mod_cast h
    push_cast at this
    linarith

theorem ratio30 (L S C : ℕ) (hC : 0 < C) :
    ((L : ℚ) < (S : ℚ) / (C : ℚ) * (3 / 10)) ↔ 10 * L * C < 3 * S := by
  have hCq : (0:ℚ) < (C : ℚ) := by exact_mod_cast hC
  rw [div_mul_eq_mul_div, lt_div_iff hCq]
  have hx : (S : ℚ) * (3 / 10) = (3 * S) / 10 := by ring
  rw [hx, lt_div_iff (by norm_num : (0:ℚ) < 10)]
  constructor
  · intro h
    have : ((10 * L * C : ℕ) : ℚ) < ((3 * S : ℕ) : ℚ) := by
      push_cast
      push_cast at h
      linarith
    exact_mod_cast this
  · intro h
    have : ((10 * L * C : ℕ) : ℚ) < ((3 * S : ℕ) : ℚ) := by exact_mod_cast h
    push_cast at this
    linarith

/-! ## C5: token budget -/

/-- C5 counterexample: at target 2 the code computes `int(2*1.3*1.5) = 3`,
not `round(3.9) = 4`, so the budget is not `round(w * 1.3 * 1.5)`. -/
theorem c5_counterexample :
    calculateMaxTokens 2 ≠ round ((2 : ℚ) * (13 / 10) * (3 / 2)) := by
  have h1 : calculateMaxTokens 2 = 3 := by
    unfold calculateMaxTokens
    rw [Int.floor_eq_iff]
    constructor <;> norm_num
  have h2 : round ((2 : ℚ) * (13 / 10) * (3 / 2)) = 4 := by
    rw [round_eq, Int.floor_eq_iff]
    constructor <;> norm_num
  rw [h1, h2]
  decide

/-- C5 (amended): the max-token budget is the truncation (floor), not the
rounding, of `target_words * 1.3 * 1.5`; equivalently `39 * w / 20` in
integer division. -/
theorem c5_amended (w : ℕ) : calculateMaxTokens w = ((39 * w) / 20 : ℕ) := by
  unfold calculateMaxTokens
  have harg : (w : ℚ) * (13 / 10) * (3 / 2) = ((39 * w : ℕ) : ℚ) / 20 := by
    push_cast; ring
  rw [harg]
  generalize 39 * w = m
  rw [Int.floor_eq_iff]
  have h1 : m / 20 * 20 ≤ m := Nat.div_mul_le_self m 20
  have h2 : m < (m / 20 + 1) * 20 := by
    have ha := Nat.div_add_mod m 20
    have hb : m % 20 < 20 := Nat.mod_lt _ (by norm_num)
    omega
  constructor
  · rw [le_div_iff (by norm_num : (0:ℚ) < 20)]
    exact_mod_cast h1
  · rw [div_lt_iff (by norm_num : (0:ℚ) < 20)]
    exact_mod_cast h2

/-! ## C8: title cleanup -/

/-- C8 counterexample: on the raw response `" "` (a quoted single space)
the quoted branch returns the stripped quote content, which is empty — the
result is neither non-empty nor the placeholder `Untitled`, refuting
"returns a string ... that is never empty" and "every empty cleaned result
becomes the literal placeholder". -/
theorem c8_counterexample : cleanTitle ('"' :: ' ' :: '"' :: []) = [] := by
  decide

/-- C8 (amended): title cleanup always returns at most 255 characters; it
prefers the first quoted substring, returning its whitespace-stripped
content (which may be empty) truncated to 255; when no quoted substring
exists, the preamble/ordinal/quote-stripped result is returned and an
empty cleanup yields the placeholder `Untitled`, so only a
whitespace-only quoted substring can make the result empty. -/
theorem c8_amended (raw : List Char) :
    (cleanTitle raw).length ≤ 255 ∧
    (∀ g, firstQuoted raw = some g → cleanTitle raw = (strip g).take 255) ∧
    (firstQuoted raw = none → cleanTitle raw ≠ []) := by
  unfold cleanTitle
  rcases h : firstQuoted raw with _ | g
  · simp only [h]
    refine ⟨?_, ?_, ?_⟩
    · split
      · decide
      · rw [List.length_take]
        exact min_le_left _ _
    · intro g hg
      exact absurd hg (by simp)
    · intro _
      split
      · decide
      · rename_i hcl
        intro hnil
        rcases hne : stripSet isQuote
            (strip (subAnchored matchOrdinal (subAnchored matchHerePreamble raw))) with
          _ | ⟨c, t⟩
        · rw [hne] at hcl
          simp at hcl
        · rw [hne] at hnil
          rw [show (255:ℕ) = 254 + 1 from rfl, List.take_succ_cons] at hnil
          simp at hnil
  · simp only [h]
    refine ⟨?_, ?_, ?_⟩
    · rw [List.length_take]
      exact min_le_left _ _
    · intro g2 hg2
      rw [Option.some_inj] at hg2
      rw [hg2]
    · intro hnone
      exact absurd hnone (by simp)

/-! ## C10: effective target words -/

theorem word_presets_lookup_pos (k : List Char) :
    0 < (WORD_PRESETS.lookup k).getD 1250 := by
  rcases h : WORD_PRESETS.lookup k with _ | v
  · simp
  · simp only [Option.getD_some]
    unfold WORD_PRESETS at h
    simp only [List.lookup] at h
    repeat' split at h
    all_goals (first | (injection h with h2; omega) | exact absurd h (by simp))

/-- C10: a falsy explicit override (absent or zero) falls back to the
story preset's word count (an unknown preset giving 1250); a non-zero
override wins; the resolved target is never zero. -/
theorem c10_target_words (ov : Option Int) (sp : Option (List Char)) (cd : Int) :
    ((ov = none ∨ ov = some 0) →
      effectiveTargetWords ov sp cd =
        (WORD_PRESETS.lookup (pyOrList sp ("medium".toList))).getD 1250) ∧
    (ov = none → WORD_PRESETS.lookup (pyOrList sp ("medium".toList)) = none →
      effectiveTargetWords ov sp cd = 1250) ∧
    (∀ n : Int, ov = some n → 0 < n → effectiveTargetWords ov sp cd = n) ∧
    effectiveTargetWords ov sp cd ≠ 0 := by
  have hpos := word_presets_lookup_pos (pyOrList sp ("medium".toList))
  unfold effectiveTargetWords
  have hne : (WORD_PRESETS.lookup (pyOrList sp ("medium".toList))).getD 1250 ≠ 0 := by
    omega
  refine ⟨?_, ?_, ?_, ?_⟩
  · rintro (rfl | rfl)
    · exact if_pos hne
    · exact (if_neg (by norm_num)).trans (if_pos hne)
  · rintro rfl hl
    exact (if_pos hne).trans (by rw [hl]; rfl)
  · rintro n rfl hn
    exact if_pos hn.ne'
  · rcases ov with _ | n
    · exact (if_pos hne).trans_ne hne
    · by_cases hn : n = 0
      · subst hn
        exact ((if_neg (by norm_num)).trans (if_pos hne)).trans_ne hne
      · exact (if_pos hn).trans_ne hn

/-! ## C2: complete-ending enforcement -/

/-- C2 counterexample: `"hi "` contains no terminal punctuation at all but
is not returned unmodified — the step right-trims it first. -/
theorem c2_counterexample :
    (∀ c ∈ ('h' :: 'i' :: ' ' :: []), isTerm c = false) ∧
    ensureCompleteEnding ('h' :: 'i' :: ' ' :: []) ≠ ('h' :: 'i' :: ' ' :: []) := by
  decide

/-- C2 (amended): for every non-empty text that (after right-trimming)
does not end in terminal punctuation, truncation to the last
terminal-punctuation match happens only if the truncated text retains at
least 80% of the characters — whenever the result differs from the merely
right-trimmed input, such a match exists and meets the 80% bound — and a
text with no terminal punctuation at all is returned with only its
trailing whitespace removed. -/
theorem c2_amended (s : List Char) (hne : s ≠ [])
    (hend : endsProper (rstrip s) = false) :
    ((∀ c ∈ s, isTerm c = false) → ensureCompleteEnding s = rstrip s) ∧
    (ensureCompleteEnding s ≠ rstrip s →
      ∃ e, lastSentEnd (rstrip s) = some e ∧
        ((rstrip s).length : ℚ) * (8 / 10) ≤
          ((rstrip ((rstrip s).take e)).length : ℚ)) := by
  have hie : s.isEmpty = false := by
    cases s
    · exact absurd rfl hne
    · rfl
  unfold ensureCompleteEnding
  simp only [hie, Bool.false_eq_true, if_false, hend]
  rcases hl : lastSentEnd (rstrip s) with _ | e
  · exact ⟨fun _ => rfl, fun hcontra => absurd rfl hcontra⟩
  · constructor
    · intro hnoterm
      have hnone : lastSentEnd (rstrip s) = none :=
        lastSentEnd_none_of_noTerm _
          (fun c hc => hnoterm c (mem_of_mem_rstrip hc))
      rw [hnone] at hl
      exact Option.noConfusion hl
    · intro hres
      by_cases hc :
          8 * (rstrip s).length ≤ 10 * (rstrip ((rstrip s).take e)).length
      · exact ⟨e, rfl, (ratio80 _ _).mpr hc⟩
      · have hres' :
            (if 8 * (rstrip s).length ≤
                10 * (rstrip ((rstrip s).take e)).length then
              checkParagraphCompleteness (rstrip ((rstrip s).take e))
            else rstrip s) ≠ rstrip s := hres
        rw [if_neg hc] at hres'
        exact absurd rfl hres'

theorem c2_witness :
    ensureCompleteEnding ('h' :: 'i' :: ' ' :: []) =
      rstrip ('h' :: 'i' :: ' ' :: []) :=
  (c2_amended _ (by decide) (by decide)).1 (by decide)

/-! ## C3: paragraph-completeness check -/

/-- C3: with at least two non-empty blank-line-delimited paragraphs, the
last paragraph is dropped (the remaining ones re-joined) exactly when its
length is below 30% of the mean length of the preceding paragraphs
(`10·last·(n-1) < 3·sum` in exact arithmetic); otherwise the text is
returned unchanged. -/
theorem c3_paragraph_rule (content : List Char)
    (h2 : 2 ≤ (paragraphsOf content).length) :
    ((((paragraphsOf content).getLast?.getD []).length : ℚ) <
        ((((paragraphsOf content).dropLast).map List.length).sum : ℚ) /
          (((paragraphsOf content).dropLast).length : ℚ) * (3 / 10) →
      checkParagraphCompleteness content =
        rstrip (List.intercalate nn ((paragraphsOf content).dropLast))) ∧
    (¬ ((((paragraphsOf content).getLast?.getD []).length : ℚ) <
        ((((paragraphsOf content).dropLast).map List.length).sum : ℚ) /
          (((paragraphsOf content).dropLast).length : ℚ) * (3 / 10)) →
      checkParagraphCompleteness content = content) := by
  have hnlt : ¬ (paragraphsOf content).length < 2 := by omega
  have hcnt : (paragraphsOf content).dropLast.length =
      (paragraphsOf content).length - 1 := List.length_dropLast _
  have hpos : 0 < (paragraphsOf content).dropLast.length := by omega
  have hiff := ratio30 ((paragraphsOf content).getLast?.getD []).length
    (((paragraphsOf content).dropLast).map List.length).sum
    ((paragraphsOf content).dropLast.length) hpos
  constructor
  · intro hlt
    exact (if_neg hnlt).trans (if_pos (hiff.mp hlt))
  · intro hge
    exact (if_neg hnlt).trans (if_neg (fun hnat => hge (hiff.mpr hnat)))

set_option maxRecDepth 40000 in
/-- C3 witness: paragraph lengths `[100, 100, 100, 10]` — the final
10-character paragraph is below 30% of the mean 100, so it is dropped. -/
theorem c3_witness :
    checkParagraphCompleteness
        (List.replicate 100 'a' ++ '\n' :: '\n' :: List.replicate 100 'b' ++
          '\n' :: '\n' :: List.replicate 100 'c' ++ '\n' :: '\n' ::
          List.replicate 10 'd') =
      rstrip (List.intercalate nn
        ((paragraphsOf
          (List.replicate 100 'a' ++ '\n' :: '\n' :: List.replicate 100 'b' ++
            '\n' :: '\n' :: List.replicate 100 'c' ++ '\n' :: '\n' ::
            List.replicate 10 'd')).dropLast)) := by
  apply (c3_paragraph_rule _ (by decide)).1
  rw [show ((paragraphsOf
      (List.replicate 100 'a' ++ '\n' :: '\n' :: List.replicate 100 'b' ++
        '\n' :: '\n' :: List.replicate 100 'c' ++ '\n' :: '\n' ::
        List.replicate 10 'd')).getLast?.getD []).length = 10 from by decide]
  rw [show (((paragraphsOf
      (List.replicate 100 'a' ++ '\n' :: '\n' :: List.replicate 100 'b' ++
        '\n' :: '\n' :: List.replicate 100 'c' ++ '\n' :: '\n' ::
        List.replicate 10 'd')).dropLast).map List.length).sum = 300 from by decide]
  rw [show ((paragraphsOf
      (List.replicate 100 'a' ++ '\n' :: '\n' :: List.replicate 100 'b' ++
        '\n' :: '\n' :: List.replicate 100 'c' ++ '\n' :: '\n' ::
        List.replicate 10 'd')).dropLast).length = 3 from by decide]
  norm_num

/-! ## C4: active-memory tier selection -/

/-- C4: tier selection is a pure function of the requested target word
count — at most 750 words renders the single most recent episode in
condensed form, 751–1250 the two most recent in full, above 1250 the three
most recent in full; condensed form is the stored summary plus the last
two paragraphs of the body. -/
theorem c4_tier_selection (eps : List Episode) (t : ℤ) :
    (t ≤ 750 → activeMemoryOfContext eps t = buildActiveMemory (eps.take 1) true) ∧
    (750 < t → t ≤ 1250 →
      activeMemoryOfContext eps t = buildActiveMemory (eps.take 2) false) ∧
    (1250 < t → activeMemoryOfContext eps t = buildActiveMemory (eps.take 3) false) ∧
    (∀ ep sm c, ep.summary = some sm → sm ≠ [] → ep.content = some c →
      getLastParagraphs (some c) 2 ≠ [] →
      buildActiveMemory [ep] true =
        ("=== Episode ".toList) ++ (Nat.repr ep.number).toList ++ (": ".toList) ++
          pyOrList ep.title ("Untitled".toList) ++ (" ===\n".toList) ++
          ("Summary: ".toList) ++ sm ++ nn ++ ("Ending:\n".toList) ++
          getLastParagraphs (some c) 2) := by
  refine ⟨?_, ?_, ?_, ?_⟩
  · intro ht
    exact congrArg (fun p : Nat × Bool => buildActiveMemory (eps.take p.1) p.2)
      (if_pos ht)
  · intro h1 h2
    exact congrArg (fun p : Nat × Bool => buildActiveMemory (eps.take p.1) p.2)
      ((if_neg (by omega)).trans (if_pos h2))
  · intro h1
    exact congrArg (fun p : Nat × Bool => buildActiveMemory (eps.take p.1) p.2)
      ((if_neg (by omega)).trans (if_neg (by omega)))
  · intro ep sm c hs hsne hc hend
    have hsm : sm.isEmpty = false := by
      cases sm
      · exact absurd rfl hsne
      · rfl
    have hed : (getLastParagraphs (some c) 2).isEmpty = false := by
      rcases hq : getLastParagraphs (some c) 2 with _ | _
      · exact absurd hq hend
      · rfl
    unfold buildActiveMemory
    simp only [List.isEmpty_cons, List.reverse_cons, List.reverse_nil,
      List.nil_append, List.map_cons, List.map_nil, hs, hc, hsm, hed,
      Bool.false_eq_true, if_false]
    simp [List.intercalate, List.intersperse, List.append_assoc]

theorem c4_witness :
    buildActiveMemory
        [Episode.mk 1 1 2 (some ['T']) (some ['x', '.']) (some ['S']) none 1]
        true =
      ("=== Episode ".toList) ++ (Nat.repr 2).toList ++ (": ".toList) ++
        pyOrList (some ['T']) ("Untitled".toList) ++ (" ===\n".toList) ++
        ("Summary: ".toList) ++ ['S'] ++ nn ++ ("Ending:\n".toList) ++
        getLastParagraphs (some ['x', '.']) 2 :=
  (c4_tier_selection [] 0).2.2.2
    (Episode.mk 1 1 2 (some ['T']) (some ['x', '.']) (some ['S']) none 1)
    ['S'] ['x', '.'] rfl (by decide) rfl (by decide)

theorem c8_witness : cleanTitle ['x'] ≠ [] :=
  (c8_amended ['x']).2.2 (by decide)

theorem c10_witness :
    effectiveTargetWords (some 800) (some ("epic".toList)) 999 = 800 :=
  (c10_target_words (some 800) (some ("epic".toList)) 999).2.2.1 800 rfl
    (by norm_num)

/-! ## Whitespace-fixpoint lemmas: repaired output carries no surrounding
whitespace -/

theorem headOK_lstrip (l : List Char) :
    ∀ c, (lstrip l).head? = some c → isWS c = false := by
  intro c hc
  have h := List.head?_dropWhile_not isWS l
  unfold lstrip at hc
  rw [hc] at h
  simpa using h

theorem rstrip_cons (c : Char) (rest : List Char) :
    rstrip (c :: rest) =
      if (rstrip rest).isEmpty && isWS c then [] else c :: rstrip rest := by
  unfold rstrip
  rw [List.reverse_cons, List.dropWhile_append]
  by_cases h : (rest.reverse.dropWhile isWS).isEmpty
  · rw [if_pos h]
    have h2 : ((rest.reverse.dropWhile isWS).reverse).isEmpty = true := by
      simpa using h
    rw [h2]
    by_cases hc : isWS c
    · simp [List.dropWhile, hc]
    · have h3 : (rest.reverse.dropWhile isWS).reverse = [] := by
        rw [List.isEmpty_iff] at h2
        exact h2
      simp [List.dropWhile, hc, h3]
  · rw [if_neg h]
    have h2 : ((rest.reverse.dropWhile isWS).reverse).isEmpty = false := by
      simpa using h
    rw [h2]
    simp

theorem headOK_rstrip (l : List Char)
    (h : ∀ c, l.head? = some c → isWS c = false) :
    ∀ c, (rstrip l).head? = some c → isWS c = false := by
  cases l with
  | nil => intro c hc; simp [rstrip] at hc
  | cons a rest =>
    intro c hc
    rw [rstrip_cons] at hc
    split at hc
    · simp at hc
    · simp at hc
      rw [← hc]
      exact h a rfl

theorem lastOK_rstrip (l : List Char) :
    ∀ c, (rstrip l).getLast? = some c → isWS c = false := by
  intro c hc
  have hrev : (rstrip l).reverse = l.reverse.dropWhile isWS := by
    simp [rstrip]
  rw [← List.head?_reverse, hrev] at hc
  have h := List.head?_dropWhile_not isWS l.reverse
  rw [hc] at h
  simpa using h

theorem rstrip_idem (l : List Char) : rstrip (rstrip l) = rstrip l := by
  have hrev : (rstrip l).reverse = l.reverse.dropWhile isWS := by
    simp [rstrip]
  show ((rstrip l).reverse.dropWhile isWS).reverse = rstrip l
  have h : (rstrip l).reverse.dropWhile isWS = (rstrip l).reverse := by
    rcases hr : (rstrip l).reverse with _ | ⟨c, t⟩
    · rfl
    · have hc : isWS c = false := by
        have h0 := List.head?_dropWhile_not isWS l.reverse
        rw [← hrev, hr] at h0
        simpa using h0
      rw [List.dropWhile_cons, hc]
      simp
  rw [h, List.reverse_reverse]

theorem strip_eq_self_of (l : List Char)
    (hh : ∀ c, l.head? = some c → isWS c = false)
    (hl : ∀ c, l.getLast? = some c → isWS c = false) : strip l = l := by
  have h1 : rstrip l = l := by
    have h : l.reverse.dropWhile isWS = l.reverse := by
      rcases hrev : l.reverse with _ | ⟨c, t⟩
      · rfl
      · have hc : l.getLast? = some c := by
          rw [← List.head?_reverse, hrev]
          rfl
        rw [List.dropWhile_cons, hl c hc]
        simp
    show (l.reverse.dropWhile isWS).reverse = l
    rw [h, List.reverse_reverse]
  show lstrip (rstrip l) = l
  rw [h1]
  rcases hl0 : l with _ | ⟨c, t⟩
  · rfl
  · show (c :: t).dropWhile isWS = c :: t
    rw [List.dropWhile_cons, hh c (by rw [hl0]; rfl)]
    simp

theorem lstrip_eq_self_of_strip (s : List Char) (h : strip s = s) :
    lstrip s = s := by
  have hr := rstrip_eq_self_of_strip s h
  have h2 := h
  unfold strip at h2
  rw [hr] at h2
  exact h2

theorem headOK_of_strip (s : List Char) (h : strip s = s) :
    ∀ c, s.head? = some c → isWS c = false := by
  intro c hc
  have hls := lstrip_eq_self_of_strip s h
  rw [← hls] at hc
  exact headOK_lstrip s c hc

theorem lastOK_of_strip (s : List Char) (h : strip s = s) :
    ∀ c, s.getLast? = some c → isWS c = false := by
  intro c hc
  have hr := rstrip_eq_self_of_strip s h
  rw [← hr] at hc
  exact lastOK_rstrip s c hc

theorem lastOK_lstrip (z : List Char)
    (h : ∀ c, z.getLast? = some c → isWS c = false) :
    ∀ c, (lstrip z).getLast? = some c → isWS c = false := by
  intro c hc
  have hrev : (lstrip z).reverse = rstrip z.reverse := by
    simp [lstrip, rstrip]
  rw [← List.head?_reverse, hrev] at hc
  refine headOK_rstrip z.reverse ?_ c hc
  intro d hd
  rw [List.head?_reverse] at hd
  exact h d hd

theorem strip_idem (s : List Char) : strip (strip s) = strip s := by
  apply strip_eq_self_of
  · exact headOK_lstrip (rstrip s)
  · exact lastOK_lstrip (rstrip s) (lastOK_rstrip s)

theorem paragraphsOf_strip_fixed (s : List Char) :
    ∀ p ∈ paragraphsOf s, strip p = p ∧ p ≠ [] := by
  intro p hp
  unfold paragraphsOf at hp
  rcases List.mem_filter.mp hp with ⟨hm, hne⟩
  rcases List.mem_map.mp hm with ⟨q, _, rfl⟩
  refine ⟨strip_idem q, ?_⟩
  simpa using hne

theorem headOK_intercalate (ps : List (List Char)) (hne : ps ≠ [])
    (hfix : ∀ p ∈ ps, strip p = p ∧ p ≠ []) :
    ∀ c, (List.intercalate nn ps).head? = some c → isWS c = false := by
  rcases ps with _ | ⟨p0, rest⟩
  · exact absurd rfl hne
  · have hp0 := hfix p0 (List.mem_cons_self p0 rest)
    have hhd : (List.intercalate nn (p0 :: rest)).head? = p0.head? := by
      cases rest with
      | nil => simp [List.intercalate]
      | cons r rs =>
        rcases hp0e : p0 with _ | ⟨c0, t0⟩
        · exact absurd hp0e hp0.2
        · simp [List.intercalate, List.intersperse]
    intro c hc
    rw [hhd] at hc
    exact headOK_of_strip p0 hp0.1 c hc

theorem strip_rstrip_of_headOK (j : List Char)
    (hh : ∀ c, j.head? = some c → isWS c = false) :
    strip (rstrip j) = rstrip j :=
  strip_eq_self_of (rstrip j) (headOK_rstrip j hh) (lastOK_rstrip j)

theorem strip_checkParagraph (z : List Char) (hz : strip z = z) :
    strip (checkParagraphCompleteness z) = checkParagraphCompleteness z := by
  have hout : checkParagraphCompleteness z = z ∨
      (¬ (paragraphsOf z).length < 2 ∧
        checkParagraphCompleteness z =
          rstrip (List.intercalate nn (paragraphsOf z).dropLast)) := by
    by_cases h1 : (paragraphsOf z).length < 2
    · exact Or.inl (if_pos h1)
    · by_cases h2 : 10 * ((paragraphsOf z).getLast?.getD []).length *
          (paragraphsOf z).dropLast.length <
          3 * ((paragraphsOf z).dropLast.map List.length).sum
      · exact Or.inr ⟨h1, (if_neg h1).trans (if_pos h2)⟩
      · exact Or.inl ((if_neg h1).trans (if_neg h2))
  rcases hout with h | ⟨h1, h⟩
  · rw [h]
    exact hz
  · rw [h]
    apply strip_rstrip_of_headOK
    apply headOK_intercalate
    · intro hnil
      have := congrArg List.length hnil
      rw [List.length_dropLast] at this
      simp at this
      omega
    · intro p hp
      exact paragraphsOf_strip_fixed z p (List.mem_of_mem_dropLast hp)

theorem matchEndAt_pos (s : List Char) (i e : Nat)
    (h : matchEndAt s i = some e) : 1 ≤ e := by
  unfold matchEndAt at h
  repeat' split at h
  all_goals first
    | exact Option.noConfusion h
    | (rw [Option.some_inj] at h; omega)

theorem lastSentEnd_pos (s : List Char) (e : Nat)
    (h : lastSentEnd s = some e) : 1 ≤ e := by
  unfold lastSentEnd at h
  have hgen : ∀ (L : List Nat) (acc : Option Nat),
      (∀ x, acc = some x → 1 ≤ x) →
      L.foldl (fun acc i =>
        match matchEndAt s i with | some e2 => some e2 | none => acc) acc =
        some e → 1 ≤ e := by
    intro L
    induction L with
    | nil =>
      intro acc hacc hf
      exact hacc e hf
    | cons a t ih =>
      intro acc hacc hf
      rw [List.foldl_cons] at hf
      refine ih _ ?_ hf
      intro x hx
      rcases hma : matchEndAt s a with _ | y
      · rw [hma] at hx
        exact hacc x hx
      · rw [hma] at hx
        rw [Option.some_inj] at hx
        subst hx
        exact matchEndAt_pos s a y hma
  exact hgen _ none (by intro x hx; exact Option.noConfusion hx) h

theorem head?_take_pos (l : List Char) (e : Nat) (h : 0 < e) :
    (l.take e).head? = l.head? := by
  cases l <;> cases e <;> simp_all

theorem ensureCompleteEnding_eq (s : List Char) (hne : s.isEmpty = false)
    (hr : rstrip s = s) :
    ensureCompleteEnding s =
      if endsProper s then checkParagraphCompleteness s
      else
        match lastSentEnd s with
        | some e =>
          if 8 * s.length ≤ 10 * (rstrip (s.take e)).length then
            checkParagraphCompleteness (rstrip (s.take e))
          else s
        | none => s := by
  unfold ensureCompleteEnding
  rw [hne]
  simp only [Bool.false_eq_true, if_false]
  rw [hr]

theorem strip_ensureComplete (s : List Char) (hs : strip s = s) :
    strip (ensureCompleteEnding s) = ensureCompleteEnding s := by
  by_cases hne : s.isEmpty
  · unfold ensureCompleteEnding
    rw [if_pos hne]
    exact hs
  · have hrs : rstrip s = s := rstrip_eq_self_of_strip s hs
    rw [ensureCompleteEnding_eq s (by simpa using hne) hrs]
    by_cases hP : endsProper s
    · rw [if_pos hP]
      exact strip_checkParagraph s hs
    · rw [if_neg hP]
      rcases hl : lastSentEnd s with _ | e
      · exact hs
      · have hred : (match some e with
            | some e2 =>
              if 8 * s.length ≤ 10 * (rstrip (s.take e2)).length then
                checkParagraphCompleteness (rstrip (s.take e2))
              else s
            | none => s) =
            if 8 * s.length ≤ 10 * (rstrip (s.take e)).length then
              checkParagraphCompleteness (rstrip (s.take e))
            else s := rfl
        rw [hred]
        by_cases hc : 8 * s.length ≤ 10 * (rstrip (s.take e)).length
        · rw [if_pos hc]
          apply strip_checkParagraph
          apply strip_rstrip_of_headOK
          intro c hc0
          rw [head?_take_pos s e (lastSentEnd_pos s e hl)] at hc0
          exact headOK_of_strip s hs c hc0
        · rw [if_neg hc]
          exact hs

theorem strip_cleanContent (x : List Char) :
    strip (cleanContent x) = cleanContent x :=
  strip_ensureComplete (strip (applyCleanupPatterns x))
    (strip_idem (applyCleanupPatterns x))

/-! ## C1: idempotence of content repair -/

set_option maxRecDepth 40000 in
/-- C1 counterexample: on `"Aaaaaaaaaaaaaaaaaaaa. b\n\nDone."` one repair
pass drops the short final paragraph, leaving text that no longer ends in
terminal punctuation; a second pass then truncates it further, so
`repair (repair x) ≠ repair x`. -/
theorem c1_counterexample :
    cleanContent (cleanContent
        ('A' :: List.replicate 19 'a' ++
          ('.' :: ' ' :: 'b' :: '\n' :: '\n' :: 'D' :: 'o' :: 'n' :: 'e' :: '.' :: []))) ≠
      cleanContent
        ('A' :: List.replicate 19 'a' ++
          ('.' :: ' ' :: 'b' :: '\n' :: '\n' :: 'D' :: 'o' :: 'n' :: 'e' :: '.' :: [])) := by
  decide

/-- A sufficient condition for the complete-ending step to fix a text:
the (whitespace-stable) text already ends in terminal punctuation
(optionally followed by a quote) and its final paragraph survives the
paragraph-completeness check. -/
theorem ensureComplete_fixed_of_endsProper (y : List Char)
    (h0 : strip y = y) (h2 : endsProper y = true)
    (h3 : checkParagraphCompleteness y = y) :
    ensureCompleteEnding y = y := by
  have hy : rstrip y = y := rstrip_eq_self_of_strip _ h0
  have hie : y.isEmpty = false := by
    rcases hq : y with _ | _
    · rw [hq] at h2
      simp [endsProper] at h2
    · rfl
  unfold ensureCompleteEnding
  simp only [hie, Bool.false_eq_true, if_false, hy, h2, if_true]
  exact h3

/-- C1 (amended): content repair is not idempotent in general, but it is
idempotent on every input whose repaired output is left unchanged by the
start-pattern stripping and by the complete-ending enforcement; the
whitespace trim fixes every repaired output unconditionally
(`strip_cleanContent`).  In particular the ending condition holds
whenever the repaired output ends in terminal punctuation (optionally
followed by a quote) and its final paragraph survives the
paragraph-completeness check (`ensureComplete_fixed_of_endsProper`), and
also for repaired output with no accepted truncation point, such as
punctuation-free text.  The counterexample shows some restriction is
necessary: a paragraph drop can leave output that a second pass truncates
again. -/
theorem c1_amended (x : List Char)
    (h1 : applyCleanupPatterns (cleanContent x) = cleanContent x)
    (h2 : ensureCompleteEnding (cleanContent x) = cleanContent x) :
    cleanContent (cleanContent x) = cleanContent x := by
  have h0 : strip (cleanContent x) = cleanContent x := strip_cleanContent x
  show ensureCompleteEnding (strip (applyCleanupPatterns (cleanContent x))) =
    cleanContent x
  rw [h1, h0, h2]

set_option maxRecDepth 40000 in
theorem c1_witness :
    cleanContent (cleanContent
        ('H' :: 'e' :: 'l' :: 'l' :: 'o' :: ' ' :: 't' :: 'h' :: 'e' :: 'r' ::
          'e' :: '.' :: ' ' :: 'A' :: 'l' :: 'l' :: ' ' :: 'g' :: 'o' :: 'o' ::
          'd' :: '.' :: [])) =
      cleanContent
        ('H' :: 'e' :: 'l' :: 'l' :: 'o' :: ' ' :: 't' :: 'h' :: 'e' :: 'r' ::
          'e' :: '.' :: ' ' :: 'A' :: 'l' :: 'l' :: ' ' :: 'g' :: 'o' :: 'o' ::
          'd' :: '.' :: []) :=
  c1_amended _ (by decide) (by decide)

/-! ## C7/C9: generation-stream events and failure cleanup -/

theorem processToken_events (epId : Nat) (cur tok : List Char) :
    ∀ ev ∈ (processToken epId cur tok).1,
      (∃ d, ev = GEvent.token d epId) ∨ (∃ d, ev = GEvent.sentence d epId) := by
  intro ev h
  simp only [processToken] at h
  split at h
  · simp at h
    rcases h with h | ⟨sn, hsn, hev⟩
    · exact Or.inl ⟨tok, by rw [h]⟩
    · exact Or.inr ⟨strip sn, hev.symm⟩
  · simp at h
    exact Or.inl ⟨tok, by rw [h]⟩

theorem processTokens_events (epId : Nat) (ts : List (List Char)) :
    ∀ cur, ∀ ev ∈ (processTokens epId ts cur).1,
      (∃ d, ev = GEvent.token d epId) ∨ (∃ d, ev = GEvent.sentence d epId) := by
  induction ts with
  | nil =>
    intro cur ev h
    simp [processTokens] at h
  | cons t ts ih =>
    intro cur ev h
    unfold processTokens at h
    rw [List.mem_append] at h
    rcases h with h | h
    · exact processToken_events epId cur t ev h
    · exact ih _ ev h

theorem flush_events (epId : Nat) (cur : List Char) :
    ∀ ev ∈ (if (strip cur).isEmpty then ([] : List GEvent)
        else [GEvent.sentence (strip cur) epId]),
      ∃ d, ev = GEvent.sentence d epId := by
  intro ev h
  split at h
  · simp at h
  · simp at h
    exact ⟨strip cur, h⟩

theorem getLast?_cons_append_singleton (a : GEvent) (l : List GEvent)
    (y : GEvent) : (a :: (l ++ [y])).getLast? = some y := by
  rw [← List.cons_append]
  exact List.getLast?_concat _

theorem deleteEpisode_addEpisode (db : DB) (e : Episode) (i : Nat)
    (hi : e.id = i) (hfresh : ∀ x ∈ db.episodes, x.id ≠ i) :
    (deleteEpisode (addEpisode db e) i).episodes = db.episodes := by
  unfold deleteEpisode addEpisode
  rw [List.filter_append]
  have h1 : db.episodes.filter (fun x => !(x.id == i)) = db.episodes :=
    List.filter_eq_self.mpr (by
      intro a ha
      simpa using hfresh a ha)
  have h2 : [e].filter (fun x => !(x.id == i)) = [] := by simp [hi]
  rw [h1, h2, List.append_nil]

/-- C9: for an existing story, the event stream is exactly one `start`
event, then only `token`/`sentence` events, then a single terminal event
that is either `complete` or `error` — all carrying the new episode's id. -/
theorem c9_event_order (db : DB) (sid : Nat) (guidance : Option (List Char))
    (backend : GenBackend) (story : Story)
    (hfind : db.stories.find? (fun s => s.id == sid) = some story) :
    ∃ mid last,
      (generateEpisodeStream db sid guidance backend).1 =
        GEvent.start db.nextEpisodeId :: (mid ++ [last]) ∧
      (∀ ev ∈ mid, (∃ d, ev = GEvent.token d db.nextEpisodeId) ∨
        (∃ d, ev = GEvent.sentence d db.nextEpisodeId)) ∧
      ((∃ t w, last = GEvent.complete db.nextEpisodeId t w) ∨
        (∃ m, last = GEvent.error m (some db.nextEpisodeId))) := by
  have hid : (if story.status = StoryStatus.draft then
      updateStoryStatus db sid StoryStatus.inProgress else db).nextEpisodeId =
      db.nextEpisodeId := by
    split <;> rfl
  unfold generateEpisodeStream
  simp only [hfind]
  rw [hid]
  rcases hse : backend.streamError with _ | msg
  · simp only [hse]
    rcases ht : generateTitle backend.titleResponse backend.fallbackTitleResponse
        with ⟨e⟩ | ⟨title⟩
    · simp only [ht]
      refine ⟨(processTokens db.nextEpisodeId backend.tokens []).1 ++
        (if (strip (processTokens db.nextEpisodeId backend.tokens []).2).isEmpty
          then ([] : List GEvent)
          else [GEvent.sentence
            (strip (processTokens db.nextEpisodeId backend.tokens []).2)
            db.nextEpisodeId]),
        GEvent.error e (some db.nextEpisodeId), ?_, ?_, Or.inr ⟨e, rfl⟩⟩
      · rfl
      · intro ev h
        rw [List.mem_append] at h
        rcases h with h | h
        · exact processTokens_events _ _ _ ev h
        · exact Or.inr (flush_events _ _ ev h)
    · simp only [ht]
      rcases hsu : backend.summaryResponse with ⟨e⟩ | ⟨rawSummary⟩
      · simp only [hsu]
        refine ⟨(processTokens db.nextEpisodeId backend.tokens []).1 ++
          (if (strip (processTokens db.nextEpisodeId backend.tokens []).2).isEmpty
            then ([] : List GEvent)
            else [GEvent.sentence
              (strip (processTokens db.nextEpisodeId backend.tokens []).2)
              db.nextEpisodeId]),
          GEvent.error e (some db.nextEpisodeId), ?_, ?_, Or.inr ⟨e, rfl⟩⟩
        · rfl
        · intro ev h
          rw [List.mem_append] at h
          rcases h with h | h
          · exact processTokens_events _ _ _ ev h
          · exact Or.inr (flush_events _ _ ev h)
      · simp only [hsu]
        refine ⟨(processTokens db.nextEpisodeId backend.tokens []).1 ++
          (if (strip (processTokens db.nextEpisodeId backend.tokens []).2).isEmpty
            then ([] : List GEvent)
            else [GEvent.sentence
              (strip (processTokens db.nextEpisodeId backend.tokens []).2)
              db.nextEpisodeId]),
          GEvent.complete db.nextEpisodeId title
            (wordCountOf (cleanContent (List.flatten backend.tokens))),
          ?_, ?_, Or.inl ⟨title, _, rfl⟩⟩
        · rfl
        · intro ev h
          rw [List.mem_append] at h
          rcases h with h | h
          · exact processTokens_events _ _ _ ev h
          · exact Or.inr (flush_events _ _ ev h)
  · simp only [hse]
    exact ⟨(processTokens db.nextEpisodeId backend.tokens []).1,
      GEvent.error msg (some db.nextEpisodeId), rfl,
      fun ev h => processTokens_events _ _ _ ev h, Or.inr ⟨msg, rfl⟩⟩

/-- C7: if the stream, title or summary call raises after the placeholder
episode was inserted, the final event is an `error` carrying the episode
id and message, and the placeholder row is deleted — the episode table is
exactly what it was before the request. -/
theorem c7_failure_cleanup (db : DB) (sid : Nat) (guidance : Option (List Char))
    (backend : GenBackend) (m : List Char) (story : Story)
    (hfind : db.stories.find? (fun s => s.id == sid) = some story)
    (hfresh : ∀ e ∈ db.episodes, e.id ≠ db.nextEpisodeId)
    (hfail : backendFailure backend = some m) :
    (generateEpisodeStream db sid guidance backend).1.getLast? =
      some (GEvent.error m (some db.nextEpisodeId)) ∧
    (generateEpisodeStream db sid guidance backend).2.episodes = db.episodes := by
  have hid : (if story.status = StoryStatus.draft then
      updateStoryStatus db sid StoryStatus.inProgress else db).nextEpisodeId =
      db.nextEpisodeId := by
    split <;> rfl
  have heps : (if story.status = StoryStatus.draft then
      updateStoryStatus db sid StoryStatus.inProgress else db).episodes =
      db.episodes := by
    split <;> rfl
  have hdel : ∀ n : Nat,
      (deleteEpisode (addEpisode
        (if story.status = StoryStatus.draft then
          updateStoryStatus db sid StoryStatus.inProgress else db)
        (Episode.mk db.nextEpisodeId sid n none none none guidance 0))
        db.nextEpisodeId).episodes = db.episodes := by
    intro n
    rw [deleteEpisode_addEpisode _ _ _ rfl (by
      intro x hx
      rw [heps] at hx
      exact hfresh x hx)]
    exact heps
  unfold backendFailure at hfail
  unfold generateEpisodeStream
  simp only [hfind]
  rw [hid, heps]
  rcases hse : backend.streamError with _ | msg
  · rw [hse] at hfail
    simp only [hse]
    rcases ht : generateTitle backend.titleResponse backend.fallbackTitleResponse
        with ⟨e⟩ | ⟨title⟩
    · rw [ht] at hfail
      simp only [ht]
      rw [Option.some_inj] at hfail
      subst hfail
      exact ⟨getLast?_cons_append_singleton _ _ _, hdel _⟩
    · rw [ht] at hfail
      simp only [ht]
      rcases hsu : backend.summaryResponse with ⟨e⟩ | ⟨rawSummary⟩
      · rw [hsu] at hfail
        simp only [hsu]
        rw [Option.some_inj] at hfail
        subst hfail
        exact ⟨getLast?_cons_append_singleton _ _ _, hdel _⟩
      · rw [hsu] at hfail
        exact Option.noConfusion hfail
  · rw [hse] at hfail
    simp only [hse]
    rw [Option.some_inj] at hfail
    subst hfail
    exact ⟨getLast?_cons_append_singleton _ _ _, hdel _⟩

theorem c7_witness :
    (generateEpisodeStream
        (DB.mk
          [Story.mk 1 ['B'] 7 StoryStatus.inProgress none none none none none
            none none]
          [Episode.mk 5 1 1 none none none none 0] [] [] 2 6)
        1 none
        (GenBackend.mk [['h', 'i', '.']] (some ['b', 'o', 'o', 'm'])
          (Except.ok ['T']) none (Except.ok ['S']))).1.getLast? =
      some (GEvent.error ['b', 'o', 'o', 'm'] (some 6)) ∧
    (generateEpisodeStream
        (DB.mk
          [Story.mk 1 ['B'] 7 StoryStatus.inProgress none none none none none
            none none]
          [Episode.mk 5 1 1 none none none none 0] [] [] 2 6)
        1 none
        (GenBackend.mk [['h', 'i', '.']] (some ['b', 'o', 'o', 'm'])
          (Except.ok ['T']) none (Except.ok ['S']))).2.episodes =
      [Episode.mk 5 1 1 none none none none 0] :=
  c7_failure_cleanup _ 1 none _ ['b', 'o', 'o', 'm']
    (Story.mk 1 ['B'] 7 StoryStatus.inProgress none none none none none none
      none)
    rfl (by decide) rfl

theorem c9_witness :
    ∃ mid last,
      (generateEpisodeStream
          (DB.mk
            [Story.mk 1 ['B'] 7 StoryStatus.inProgress none none none none
              none none none]
            [Episode.mk 5 1 1 none none none none 0] [] [] 2 6)
          1 none
          (GenBackend.mk [['h', 'i', '.']] none (Except.ok ['T']) none
            (Except.ok ['S']))).1 =
        GEvent.start 6 :: (mid ++ [last]) ∧
      (∀ ev ∈ mid, (∃ d, ev = GEvent.token d 6) ∨
        (∃ d, ev = GEvent.sentence d 6)) ∧
      ((∃ t w, last = GEvent.complete 6 t w) ∨
        (∃ m, last = GEvent.error m (some 6))) :=
  c9_event_order _ 1 none _
    (Story.mk 1 ['B'] 7 StoryStatus.inProgress none none none none none none
      none)
    rfl

/-! ## C6: forking -/

theorem insertByNumber_perm (e : Episode) (l : List Episode) :
    List.Perm (insertByNumber e l) (e :: l) := by
  induction l with
  | nil => exact List.Perm.refl _
  | cons f fs ih =>
    unfold insertByNumber
    split
    · exact List.Perm.refl _
    · exact (List.Perm.cons f ih).trans (List.Perm.swap e f fs)

theorem sortByNumber_perm (l : List Episode) :
    List.Perm (sortByNumber l) l := by
  induction l with
  | nil => exact List.Perm.refl _
  | cons e es ih =>
    exact (insertByNumber_perm e (sortByNumber es)).trans (List.Perm.cons e ih)

theorem insertByNumber_sorted (e : Episode) (l : List Episode)
    (h : List.Pairwise (fun a b : Episode => a.number ≤ b.number) l) :
    List.Pairwise (fun a b : Episode => a.number ≤ b.number)
      (insertByNumber e l) := by
  induction l with
  | nil => simp [insertByNumber]
  | cons f fs ih =>
    rcases h with _ | ⟨hf, hfs⟩
    unfold insertByNumber
    split
    · rename_i hef
      exact List.Pairwise.cons
        (by
          intro x hx
          rcases List.mem_cons.mp hx with rfl | hx
          · exact hef
          · exact le_trans hef (hf x hx))
        (List.Pairwise.cons hf hfs)
    · rename_i hef
      exact List.Pairwise.cons
        (by
          intro x hx
          rcases List.mem_cons.mp ((insertByNumber_perm e fs).mem_iff.mp hx)
            with rfl | hx
          · omega
          · exact hf x hx)
        (ih hfs)

theorem sortByNumber_sorted (l : List Episode) :
    List.Pairwise (fun a b : Episode => a.number ≤ b.number)
      (sortByNumber l) := by
  induction l with
  | nil => exact List.Pairwise.nil
  | cons e es ih => exact insertByNumber_sorted e _ ih

theorem map_number_filter (K : Nat) (l : List Episode) :
    (l.filter (fun e => e.number ≤ K)).map Episode.number =
      (l.map Episode.number).filter (fun n => n ≤ K) := by
  induction l with
  | nil => rfl
  | cons e es ih =>
    by_cases h : e.number ≤ K <;>
      simp [List.filter_cons, h, ih]

theorem range'_filter_le (N K : Nat) (h : K ≤ N) :
    (List.range' 1 N).filter (fun n => n ≤ K) = List.range' 1 K := by
  induction N with
  | zero =>
    have hz : K = 0 := by omega
    subst hz
    rfl
  | succ n ih =>
    have hconc : List.range' 1 (n + 1) = List.range' 1 n ++ [n + 1] := by
      rw [List.range'_concat]
      simp [Nat.add_comm]
    rw [hconc, List.filter_append]
    by_cases hk : K ≤ n
    · rw [ih hk]
      have : ([n + 1].filter (fun m => m ≤ K)) = [] := by
        simp
        omega
      rw [this, List.append_nil]
    · have hk2 : K = n + 1 := by omega
      subst hk2
      have h1 : (List.range' 1 n).filter (fun m => m ≤ n + 1) =
          List.range' 1 n :=
        List.filter_eq_self.mpr (by
          intro a ha
          rw [List.mem_range'] at ha
          simp
          omega)
      have h2 : ([n + 1].filter (fun m => m ≤ n + 1)) = [n + 1] := by simp
      rw [h1, h2, ← hconc]

theorem enum_copy_map {β : Type} (l : List Episode) (base newSid : Nat)
    (g : Episode → β)
    (hg : ∀ i e, g (Episode.mk (base + i) newSid e.number e.title e.content
      e.summary e.guidance e.wordCount) = g e) :
    ((l.enum.map (fun p => Episode.mk (base + p.1) newSid p.2.number p.2.title
      p.2.content p.2.summary p.2.guidance p.2.wordCount)).map g) = l.map g := by
  rw [List.map_map]
  have h1 : (g ∘ fun p : Nat × Episode => Episode.mk (base + p.1) newSid
      p.2.number p.2.title p.2.content p.2.summary p.2.guidance p.2.wordCount) =
      (fun p : Nat × Episode => g p.2) :=
    funext fun p => hg p.1 p.2
  rw [h1]
  have h2 : (fun p : Nat × Episode => g p.2) = g ∘ Prod.snd := rfl
  rw [h2, ← List.map_map, List.enum_map_snd]

theorem sorted_filter_map_number (l : List Episode) (K N : Nat)
    (hnum : (sortByNumber l).map Episode.number = List.range' 1 N)
    (hK : K ≤ N) :
    (sortByNumber (l.filter (fun e => e.number ≤ K))).map Episode.number =
      List.range' 1 K := by
  have hperm : List.Perm
      ((sortByNumber (l.filter (fun e => e.number ≤ K))).map Episode.number)
      (((sortByNumber l).filter (fun e => e.number ≤ K)).map Episode.number) := by
    refine List.Perm.map Episode.number ?_
    exact (sortByNumber_perm _).trans
      (((sortByNumber_perm l).filter _).symm)
  have hs1 : List.Pairwise (fun a b : Nat => a ≤ b)
      ((sortByNumber (l.filter (fun e => e.number ≤ K))).map Episode.number) :=
    List.Pairwise.map Episode.number (fun a b hab => hab)
      (sortByNumber_sorted _)
  have hs2 : List.Pairwise (fun a b : Nat => a ≤ b)
      (((sortByNumber l).filter (fun e => e.number ≤ K)).map Episode.number) :=
    List.Pairwise.map Episode.number (fun a b hab => hab)
      ((sortByNumber_sorted l).filter _)
  have heq : (sortByNumber (l.filter (fun e => e.number ≤ K))).map
      Episode.number =
      ((sortByNumber l).filter (fun e => e.number ≤ K)).map Episode.number :=
    List.eq_of_perm_of_sorted hperm hs1 hs2
  rw [heq, map_number_filter, hnum, range'_filter_le N K hK]

/-- C6: forking an existing story creates a story that references the
source as parent with the given fork point, copies the five generation
settings verbatim, and copies exactly the source episodes with number ≤ K
(in number order) with identical number/title/content/summary/guidance/
word_count; when the source numbering is contiguous `1..N` and `K ≤ N`,
the fork's episode numbers are exactly `1..K`. -/
theorem c6_fork (db : DB) (sid K : Nat) (t : List Char) (orig : Story)
    (N : Nat)
    (hfind : db.stories.find? (fun s => s.id == sid) = some orig)
    (hfresh : ∀ e ∈ db.episodes, e.storyId ≠ db.nextStoryId) :
    ∃ db2 f, forkStory db sid K t = some (db2, f) ∧
      f.parentStoryId = some sid ∧
      f.forkFromEpisode = some K ∧
      f.targetWordPreset = orig.targetWordPreset ∧
      f.temperature = orig.temperature ∧
      f.writingStyle = orig.writingStyle ∧
      f.mood = orig.mood ∧
      f.pacing = orig.pacing ∧
      (db2.episodes.filter (fun e => e.storyId == f.id)).map
          (fun e => (e.number, e.title, e.content, e.summary, e.guidance,
            e.wordCount)) =
        (sortByNumber (db.episodes.filter
            (fun e => e.storyId == sid && e.number ≤ K))).map
          (fun e => (e.number, e.title, e.content, e.summary, e.guidance,
            e.wordCount)) ∧
      ((sortByNumber (db.episodes.filter (fun e => e.storyId == sid))).map
          Episode.number = List.range' 1 N → K ≤ N →
        (db2.episodes.filter (fun e => e.storyId == f.id)).map
          Episode.number = List.range' 1 K) := by
  rcases hq : forkStory db sid K t with _ | ⟨db2, f⟩
  · exfalso
    unfold forkStory at hq
    simp only [hfind] at hq
    exact Option.noConfusion hq
  · unfold forkStory at hq
    simp only [hfind] at hq
    rw [Option.some_inj, Prod.mk.injEq] at hq
    rcases hq with ⟨h1, h2⟩
    subst h1
    subst h2
    refine ⟨_, _, rfl, rfl, rfl, rfl, rfl, rfl, rfl, rfl, ?_, ?_⟩
    · show ((db.episodes ++ _).filter _).map _ = _
      rw [List.filter_append]
      have hold : db.episodes.filter
          (fun e => e.storyId == db.nextStoryId) = [] :=
        List.filter_eq_nil_iff.mpr (fun a ha => by simpa using hfresh a ha)
      rw [hold, List.nil_append]
      have hcop : ∀ l : List Episode, ∀ a ∈ l.enum.map
          (fun p : Nat × Episode => Episode.mk (db.nextEpisodeId + p.1)
            db.nextStoryId p.2.number p.2.title p.2.content p.2.summary
            p.2.guidance p.2.wordCount),
          (a.storyId == db.nextStoryId) = true := by
        intro l a ha
        rcases List.mem_map.mp ha with ⟨p, _, rfl⟩
        simp
      rw [List.filter_eq_self.mpr (hcop _)]
      exact enum_copy_map _ _ _ _ (fun i e => rfl)
    · intro hnum hK
      show ((db.episodes ++ _).filter _).map _ = _
      rw [List.filter_append]
      have hold : db.episodes.filter
          (fun e => e.storyId == db.nextStoryId) = [] :=
        List.filter_eq_nil_iff.mpr (fun a ha => by simpa using hfresh a ha)
      rw [hold, List.nil_append]
      have hcop : ∀ l : List Episode, ∀ a ∈ l.enum.map
          (fun p : Nat × Episode => Episode.mk (db.nextEpisodeId + p.1)
            db.nextStoryId p.2.number p.2.title p.2.content p.2.summary
            p.2.guidance p.2.wordCount),
          (a.storyId == db.nextStoryId) = true := by
        intro l a ha
        rcases List.mem_map.mp ha with ⟨p, _, rfl⟩
        simp
      rw [List.filter_eq_self.mpr (hcop _)]
      rw [enum_copy_map _ _ _ Episode.number (fun i e => rfl)]
      have hff : db.episodes.filter
          (fun e => e.storyId == sid && decide (e.number ≤ K)) =
          (db.episodes.filter (fun e => e.storyId == sid)).filter
            (fun e => decide (e.number ≤ K)) := by
        rw [List.filter_filter]
        exact List.filter_congr (fun a _ => Bool.and_comm _ _)
      rw [hff]
      exact sorted_filter_map_number _ K N hnum hK

theorem c6_witness :
    ∃ db2 f, forkStory
        (DB.mk
          [Story.mk 1 ['B'] 7 StoryStatus.draft none none
            (some ("long".toList)) none none none none]
          [Episode.mk 10 1 1 (some ['a']) (some ['x', '.']) none none 1,
            Episode.mk 12 1 3 none (some ['z', '.']) none none 1,
            Episode.mk 11 1 2 none (some ['y', '.']) none none 1]
          [] [] 2 13)
        1 2 ['F'] = some (db2, f) ∧
      f.parentStoryId = some 1 ∧
      f.forkFromEpisode = some 2 ∧
      f.targetWordPreset = (Story.mk 1 ['B'] 7 StoryStatus.draft none none
        (some ("long".toList)) none none none none).targetWordPreset ∧
      f.temperature = (Story.mk 1 ['B'] 7 StoryStatus.draft none none
        (some ("long".toList)) none none none none).temperature ∧
      f.writingStyle = (Story.mk 1 ['B'] 7 StoryStatus.draft none none
        (some ("long".toList)) none none none none).writingStyle ∧
      f.mood = (Story.mk 1 ['B'] 7 StoryStatus.draft none none
        (some ("long".toList)) none none none none).mood ∧
      f.pacing = (Story.mk 1 ['B'] 7 StoryStatus.draft none none
        (some ("long".toList)) none none none none).pacing ∧
      (db2.episodes.filter (fun e => e.storyId == f.id)).map
          (fun e => (e.number, e.title, e.content, e.summary, e.guidance,
            e.wordCount)) =
        (sortByNumber ((DB.mk
          [Story.mk 1 ['B'] 7 StoryStatus.draft none none
            (some ("long".toList)) none none none none]
          [Episode.mk 10 1 1 (some ['a']) (some ['x', '.']) none none 1,
            Episode.mk 12 1 3 none (some ['z', '.']) none none 1,
            Episode.mk 11 1 2 none (some ['y', '.']) none none 1]
          [] [] 2 13).episodes.filter
            (fun e => e.storyId == 1 && e.number ≤ 2))).map
          (fun e => (e.number, e.title, e.content, e.summary, e.guidance,
            e.wordCount)) ∧
      ((sortByNumber ((DB.mk
          [Story.mk 1 ['B'] 7 StoryStatus.draft none none
            (some ("long".toList)) none none none none]
          [Episode.mk 10 1 1 (some ['a']) (some ['x', '.']) none none 1,
            Episode.mk 12 1 3 none (some ['z', '.']) none none 1,
            Episode.mk 11 1 2 none (some ['y', '.']) none none 1]
          [] [] 2 13).episodes.filter (fun e => e.storyId == 1))).map
          Episode.number = List.range' 1 3 → 2 ≤ 3 →
        (db2.episodes.filter (fun e => e.storyId == f.id)).map
          Episode.number = List.range' 1 2) :=
  c6_fork
    (DB.mk
      [Story.mk 1 ['B'] 7 StoryStatus.draft none none
        (some ("long".toList)) none none none none]
      [Episode.mk 10 1 1 (some ['a']) (some ['x', '.']) none none 1,
        Episode.mk 12 1 3 none (some ['z', '.']) none none 1,
        Episode.mk 11 1 2 none (some ['y', '.']) none none 1]
      [] [] 2 13)
    1 2 ['F']
    (Story.mk 1 ['B'] 7 StoryStatus.draft none none (some ("long".toList))
      none none none none)
    3 rfl (by decide)

end Storyteller
